import Mathlib

/-!
# Verification of the Sentindex core (price cache, index calculator, consumer loop)

Shallow embedding of `src/core/index_calculator.py` and the cache/orchestration
logic of `src/services/index_consumer.py`.

Modelling choices:
* Python `float` values are modelled as exact rationals (`ℚ`).
* Python `dict` objects are modelled as association lists `List (String × α)`;
  lookup takes the first matching key (Python dicts have no duplicate keys, so
  this agrees), and assignment (`d[k] = v`) replaces the first binding in place
  or appends a fresh binding at the end, exactly Python's insertion-order rule.
* Python `round(x, n)` is modelled as rounding `x·10^n` to the nearest integer
  and dividing back; tie behaviour (Python rounds ties to even) differs only at
  exact midpoints, which none of the checked scenarios hit.
* Python `datetime` timestamps are modelled as integers (`ℤ`) — only their
  order is consumed by the code.
-/

namespace Sentindex

/-- First-match lookup in an association list (Python `d[k]` / `k in d`). -/
def lookup (d : List (String × α)) (k : String) : Option α :=
  match d with
  | [] => none
  | (k', v) :: rest => if k' = k then some v else lookup rest k

/-- Python dict assignment `d[k] = v`: replace the first binding of `k` in
place, or append a new binding at the end (insertion order preserved). -/
def dictSet (d : List (String × α)) (k : String) (v : α) : List (String × α) :=
  match d with
  | [] => [(k, v)]
  | (k', v') :: rest => if k' = k then (k, v) :: rest else (k', v') :: dictSet rest k v

/-- Round a rational to the nearest integer, halves up: `⌊x + 1/2⌋`. -/
def ratRound (x : ℚ) : ℤ :=
  ⌊x + 1 / 2⌋

/-- Python's `round(x, n)`: round to `n` decimal places. -/
def roundTo (n : ℕ) (x : ℚ) : ℚ :=
  (ratRound (x * 10 ^ n) : ℚ) / 10 ^ n

/-! ## IndexCalculator (src/core/index_calculator.py) -/

/-- The state of a constructed `IndexCalculator`. -/
structure IndexCalculator where
  weights : List (String × ℚ)
  base_prices : List (String × ℚ)
  index_base : ℚ

/-- Sum of the weight values (`sum(weights.values())`). -/
def weightSum (weights : List (String × ℚ)) : ℚ :=
  (weights.map Prod.snd).sum

/-- Constructor `IndexCalculator.__init__`: store the fields, then raise `ValueError`
when `abs(weight_sum - 1.0) > 0.001`. -/
def mkIndexCalculator (weights base_prices : List (String × ℚ))
    (index_base : ℚ) : Except String IndexCalculator :=
  if |weightSum weights - 1| > 1 / 1000 then
    .error "Weights must sum to 1.0"
  else
    .ok ⟨weights, base_prices, index_base⟩

/-- The accumulation loop of `compute_level_normalized`: walk the weight
bindings; skip a symbol when its price is missing, its base price is missing,
or its base price is `≤ 0`; otherwise add `price / base_price * weight`. -/
def levelScore (base_prices prices : List (String × ℚ)) :
    List (String × ℚ) → ℚ
  | [] => 0
  | (symbol, weight) :: rest =>
    match lookup prices symbol, lookup base_prices symbol with
    | some p, some b =>
      (if b ≤ 0 then 0 else p / b * weight) + levelScore base_prices prices rest
    | some _, none => levelScore base_prices prices rest
    | none, _ => levelScore base_prices prices rest

/-- Method `IndexCalculator.compute_level_normalized`:
`round(score * index_base, 2)`. -/
def computeLevelNormalized (ic : IndexCalculator)
    (prices : List (String × ℚ)) : ℚ :=
  roundTo 2 (levelScore ic.base_prices prices ic.weights * ic.index_base)

/-- The accumulation loop of `compute_return_index`: walk the weight bindings;
skip a symbol missing from either price map or whose previous price is `≤ 0`;
otherwise add `(cur - prev) / prev * weight`. -/
def returnAccum (prev_prices cur_prices : List (String × ℚ)) :
    List (String × ℚ) → ℚ
  | [] => 0
  | (symbol, weight) :: rest =>
    match lookup prev_prices symbol, lookup cur_prices symbol with
    | some pv, some cv =>
      (if pv ≤ 0 then 0 else (cv - pv) / pv * weight)
        + returnAccum prev_prices cur_prices rest
    | some _, none => returnAccum prev_prices cur_prices rest
    | none, _ => returnAccum prev_prices cur_prices rest

/-- Method `IndexCalculator.compute_return_index`:
`round(prev_index_level * (1 + weighted_return), 4)`. -/
def computeReturnIndex (ic : IndexCalculator)
    (prev_prices cur_prices : List (String × ℚ))
    (prev_index_level : ℚ) : ℚ :=
  roundTo 4 (prev_index_level * (1 + returnAccum prev_prices cur_prices ic.weights))

/-- Method `IndexCalculator.compute_index_delta_24h`: `0.0` when the previous value
is `≤ 0`, else `round(((current - past) / past) * 100, 2)`. -/
def computeIndexDelta24h (current_index prev_24h_index : ℚ) : ℚ :=
  if prev_24h_index ≤ 0 then 0
  else roundTo 2 ((current_index - prev_24h_index) / prev_24h_index * 100)

/-- The per-symbol loop of `validate_prices`: first violation in the iteration
order of the weights, missing-symbol checked before non-positive price. -/
def validateLoop (prices : List (String × ℚ)) :
    List (String × ℚ) → Bool × String
  | [] => (true, "")
  | (symbol, _) :: rest =>
    match lookup prices symbol with
    | none => (false, "Missing price for " ++ symbol)
    | some p =>
      if p ≤ 0 then (false, "Invalid price for " ++ symbol ++ ": " ++ toString p)
      else validateLoop prices rest

/-- Method `IndexCalculator.validate_prices`: an empty mapping fails immediately with
`"No price data provided"`, otherwise the per-symbol loop decides. -/
def validate_prices (ic : IndexCalculator)
    (prices : List (String × ℚ)) : Bool × String :=
  if prices.isEmpty then (false, "No price data provided")
  else validateLoop prices ic.weights

/-! ## IndexConfig.get_gold_silver_oil_crypto_config -/

/-- The weights of the Gold-Silver-Oil-Crypto configuration. -/
def goldWeights : List (String × ℚ) :=
  [("GOLD", 0.25), ("SILVER", 0.25), ("OIL", 0.20), ("BTC", 0.15), ("ETH", 0.15)]

/-- The base prices of the Gold-Silver-Oil-Crypto configuration. -/
def goldBasePrices : List (String × ℚ) :=
  [("GOLD", 1800), ("SILVER", 23), ("OIL", 75), ("BTC", 20000), ("ETH", 1000)]

/-- Factory `IndexConfig.create_calculator` applied to the Gold-Silver-Oil-Crypto
configuration (base level 1000). -/
def goldCalculator : IndexCalculator :=
  ⟨goldWeights, goldBasePrices, 1000⟩

/-- The scenario-1 price snapshot. -/
def scenario1Prices : List (String × ℚ) :=
  [("GOLD", 1900.12), ("SILVER", 24.31), ("OIL", 78.45), ("BTC", 27450), ("ETH", 1850)]

/-! ## IndexConsumer (src/services/index_consumer.py) -/

/-- Model `PriceData` (src/models/data_models.py): a normalized price observation.
`timestamp` is the observation time (`observed_at` in the spec's wording). -/
structure PriceData where
  symbol : String
  price : ℚ
  unit : String
  timestamp : ℤ
  source : String
  source_id : Option String
  confidence : ℚ

/-- The cache key used by `_update_price_cache`: `f"{symbol}:{source}"`. -/
def cacheKey (pd : PriceData) : String :=
  pd.symbol ++ ":" ++ pd.source

/-- The in-memory price cache `self.price_cache : Dict[str, PriceData]`,
keyed by `symbol:source` strings, in insertion order. -/
abbrev PriceCache := List (String × PriceData)

/-- Method `IndexConsumer._update_price_cache`: unconditional dict assignment
`self.price_cache[cache_key] = price_data` (the Redis mirror write is an
external side effect and is not part of the cache state). -/
def updatePriceCache (cache : PriceCache) (pd : PriceData) : PriceCache :=
  dictSet cache (cacheKey pd) pd

/-- The loop body of the per-symbol scan in `_get_latest_prices_for_index`:
`latest_price` is replaced when the entry matches the symbol and either no
candidate is held yet or the entry's timestamp is strictly greater. -/
def latestStep (symbol : String) (acc : Option PriceData)
    (e : String × PriceData) : Option PriceData :=
  if e.2.symbol = symbol then
    match acc with
    | none => some e.2
    | some best => if best.timestamp < e.2.timestamp then some e.2 else acc
  else acc

/-- The per-symbol scan of `_get_latest_prices_for_index`, walking the cache
entries in insertion order with the `latest_price` accumulator (so on a
timestamp tie the earliest-inserted entry wins). -/
def latestScan (symbol : String) (acc : Option PriceData) :
    List (String × PriceData) → Option PriceData
  | [] => acc
  | e :: rest => latestScan symbol (latestStep symbol acc e) rest

/-- The freshest cached observation for a symbol, if any. -/
def latestForSymbol (cache : PriceCache) (symbol : String) : Option PriceData :=
  latestScan symbol none cache

/-- Method `IndexConsumer._get_latest_prices_for_index`: for each symbol of the
index's weight mapping, in order, emit the price of the freshest cached
observation for that symbol; symbols with no cached observation are omitted. -/
def getLatestPricesForIndex (cache : PriceCache)
    (weights : List (String × ℚ)) : List (String × ℚ) :=
  weights.foldr
    (fun sw acc =>
      match latestForSymbol cache sw.1 with
      | some pd => (sw.1, pd.price) :: acc
      | none => acc)
    []

/-- One index configuration as held in `self.index_configs`. -/
structure IndexConfigRec where
  name : String
  base_level : ℚ
  weights : List (String × ℚ)
  base_prices : List (String × ℚ)

/-- A stored index result row (the fields of `index_data` that the claims
consume; `timestamp` and the audit payload are determined by the inputs). -/
structure IndexResultRec where
  index_name : String
  index_value : ℚ
  delta_24h_pct : Option ℚ

/-- The body of the per-index `try` block of `_calculate_indices` for one
index: snapshot, bail out on empty snapshot, construct the calculator, bail
out on invalid prices, compute the level-normalized value, read the 24h delta,
and persist. `persistOk name = false` models `store_index_value` raising for
that index; the surrounding `except` swallows the exception, so the result is
simply not stored. Returns the stored row, if any. -/
def processIndex (cache : PriceCache) (delta : String → Option ℚ)
    (persistOk : String → Bool) (cfg : IndexConfigRec) : Option IndexResultRec :=
  let prices := getLatestPricesForIndex cache cfg.weights
  if prices.isEmpty then none
  else
    match mkIndexCalculator cfg.weights cfg.base_prices cfg.base_level with
    | .error _ => none
    | .ok ic =>
      if (validate_prices ic prices).1 = false then none
      else
        let v := computeLevelNormalized ic prices
        if persistOk cfg.name then some ⟨cfg.name, v, delta cfg.name⟩ else none

/-- Method `IndexConsumer._calculate_indices`: iterate over all configured indices;
each index is processed inside its own `try`/`except`, so the cycle collects
exactly the rows of the indices whose processing succeeded. -/
def calculateIndices (cache : PriceCache) (delta : String → Option ℚ)
    (persistOk : String → Bool) (configs : List IndexConfigRec) :
    List IndexResultRec :=
  configs.filterMap (processIndex cache delta persistOk)

/-! ## Spec-side definitions (for refinement comparisons)

These follow the spec's words, for comparison with the embedded code. -/

/-- Whether a symbol contributes to the level-normalized sum per the spec: its
price is present, its base price is present, and the base price is positive. -/
def levelKept (base_prices prices : List (String × ℚ)) (sw : String × ℚ) : Bool :=
  (lookup prices sw.1).isSome &&
    (match lookup base_prices sw.1 with
     | some b => decide (0 < b)
     | none => false)

/-- The spec's level-normalized sum:
`Σ over the remaining symbols of (price[s] / base_price[s]) × weight[s] × base_level`. -/
def specLevelSum (weights base_prices prices : List (String × ℚ))
    (base_level : ℚ) : ℚ :=
  ((weights.filter (levelKept base_prices prices)).map
    (fun sw =>
      (lookup prices sw.1).getD 0 / (lookup base_prices sw.1).getD 0 * sw.2 * base_level)).sum

/-- Whether a symbol contributes to the weighted period return per the spec:
present in both price maps with a positive previous price. -/
def returnKept (prev_prices cur_prices : List (String × ℚ)) (sw : String × ℚ) : Bool :=
  (lookup prev_prices sw.1).isSome && (lookup cur_prices sw.1).isSome &&
    (match lookup prev_prices sw.1 with
     | some pv => decide (0 < pv)
     | none => false)

/-- The spec's weighted period return:
`Σ over kept symbols of (cur[s] - prev[s]) / prev[s] × weight[s]`. -/
def specReturnSum (weights prev_prices cur_prices : List (String × ℚ)) : ℚ :=
  ((weights.filter (returnKept prev_prices cur_prices)).map
    (fun sw =>
      ((lookup cur_prices sw.1).getD 0 - (lookup prev_prices sw.1).getD 0)
        / (lookup prev_prices sw.1).getD 0 * sw.2)).sum

/-- A validation violation per the spec: some configured symbol is missing
from the mapping, or has a non-positive price. -/
def specViolation (weights prices : List (String × ℚ)) : Prop :=
  ∃ s ∈ weights.map Prod.fst,
    lookup prices s = none ∨ ∃ p, lookup prices s = some p ∧ p ≤ 0

/-- The message of the first violation in the iteration order of the weights,
missing-symbol checked before non-positive price (the spec's wording). -/
def firstViolationMsg (prices : List (String × ℚ)) :
    List (String × ℚ) → Option String
  | [] => none
  | (symbol, _) :: rest =>
    match lookup prices symbol with
    | none => some ("Missing price for " ++ symbol)
    | some p =>
      if p ≤ 0 then some ("Invalid price for " ++ symbol ++ ": " ++ toString p)
      else firstViolationMsg prices rest

/-! ## Concrete data for scenarios and witnesses -/

/-- The scenario-3 price snapshot: BTC and ETH missing entirely. -/
def scenario3Prices : List (String × ℚ) :=
  [("GOLD", 1900.12), ("SILVER", 24.31), ("OIL", 78.45)]

/-- Observation A of the cache scenario: symbol GOLD at time `T1 = 2`. -/
def obsA : PriceData :=
  ⟨"GOLD", 100, "USD/oz", 2, "alpha", none, 1⟩

/-- Observation B of the cache scenario: symbol GOLD at the earlier time
`T0 = 1`, from the same source as A. -/
def obsB : PriceData :=
  ⟨"GOLD", 90, "USD/oz", 1, "alpha", none, 1⟩

/-- A one-symbol index configuration named `indexA`. -/
def cfgA : IndexConfigRec :=
  ⟨"indexA", 1000, [("GOLD", 1)], [("GOLD", 100)]⟩

/-- A one-symbol index configuration named `indexB`. -/
def cfgB : IndexConfigRec :=
  ⟨"indexB", 500, [("GOLD", 1)], [("GOLD", 50)]⟩

/-- A cache holding a single GOLD observation, for the isolation scenario. -/
def cacheW : PriceCache :=
  [("GOLD:alpha", obsA)]

/-- Fault injection of scenario 5: persistence fails for `indexA` only. -/
def persistFailA (name : String) : Bool :=
  name != "indexA"

/-- The gold configuration's weights with the first two entries swapped. -/
def goldWeightsSwapped : List (String × ℚ) :=
  [("SILVER", 0.25), ("GOLD", 0.25), ("OIL", 0.20), ("BTC", 0.15), ("ETH", 0.15)]

/-- Observation C: symbol GOLD at the earlier time `T0 = 1`, from a source
different from A's. -/
def obsC : PriceData :=
  ⟨"GOLD", 90, "USD/oz", 1, "beta", none, 1⟩

/-! ## IEEE binary64 model

The Python source computes in `float`, i.e. IEEE binary64. The exact-rational
model above captures the ideal arithmetic; the definitions below capture the
per-operation rounding of the actual runtime, which is needed to settle the
order-of-accumulation question for `compute_level_normalized`. -/

/-- Round a rational to the nearest integer, ties to even (the rounding IEEE
binary64 applies at significand level). -/
def roundHalfEvenInt (q : ℚ) : ℤ :=
  if q - ⌊q⌋ < 1 / 2 then ⌊q⌋
  else if 1 / 2 < q - ⌊q⌋ then ⌊q⌋ + 1
  else if 2 ∣ ⌊q⌋ then ⌊q⌋ else ⌊q⌋ + 1

/-- The binary64 quantum exponent of a value: finite doubles near `x` are the
multiples of `2 ^ floatExp x` (52 fractional significand bits; the clamp at
`-1074` is the subnormal range). -/
def floatExp (x : ℚ) : ℤ :=
  max (Int.log 2 |x| - 52) (-1074)

/-- Round a rational to the nearest IEEE binary64 value (round to nearest,
ties to even). Overflow to infinity (at `2 ^ 1024`) is not modelled; no value
in this development reaches it. -/
def fl (x : ℚ) : ℚ :=
  if x = 0 then 0
  else (roundHalfEvenInt (x / 2 ^ floatExp x) : ℚ) * 2 ^ floatExp x

/-- The accumulation loop of `compute_level_normalized` as executed in
binary64: Python rounds `prices[s] / base_prices[s]` once, the multiplication
by the weight once, and the `score +=` once, left to right in the iteration
order of the weights. -/
def floatLevelLoop (base_prices prices : List (String × ℚ)) (score : ℚ) :
    List (String × ℚ) → ℚ
  | [] => score
  | (symbol, weight) :: rest =>
    match lookup prices symbol, lookup base_prices symbol with
    | some p, some b =>
      if b ≤ 0 then floatLevelLoop base_prices prices score rest
      else floatLevelLoop base_prices prices (fl (score + fl (fl (p / b) * weight))) rest
    | some _, none => floatLevelLoop base_prices prices score rest
    | none, _ => floatLevelLoop base_prices prices score rest

/-- Method `compute_level_normalized` as executed in binary64: the loop's
score, one rounded multiplication by the base level, then the 2-decimal
rounding (whose result is again a binary64 value). -/
def floatComputeLevelNormalized (ic : IndexCalculator)
    (prices : List (String × ℚ)) : ℚ :=
  fl (roundTo 2 (fl (floatLevelLoop ic.base_prices prices 0 ic.weights * ic.index_base)))

/-- One ordering of the reordering-counterexample weights (sum is exactly 1,
so the calculator constructs; every weight is a dyadic rational, hence an
exact double). -/
def c9Weights1 : List (String × ℚ) :=
  [("A", 0.5), ("B", 0.25), ("C", 0.25)]

/-- The same weight mapping with its bindings rotated by one. -/
def c9Weights2 : List (String × ℚ) :=
  [("B", 0.25), ("C", 0.25), ("A", 0.5)]

/-- Base prices of 1, so the per-symbol divisions are exact. -/
def c9Bases : List (String × ℚ) :=
  [("A", 1), ("B", 1), ("C", 1)]

/-- Counterexample prices: each weighted term (`10^16`, `1`, `1`) is an exact
double, but accumulating them left to right rounds differently in the two
orders (`10^16 + 1` rounds back to `10^16`; `2 + 10^16` is exact). -/
def c9Prices : List (String × ℚ) :=
  [("A", 20000000000000000), ("B", 4), ("C", 4)]

/-! ## Helper lemmas -/

/-- Pulling a constant factor out of a list sum. -/
theorem sum_map_mul_const (l : List α) (f : α → ℚ) (r : ℚ) :
    (l.map fun x => f x * r).sum = (l.map f).sum * r := by
  induction l with
  | nil => simp
  | cons x xs ih => simp [ih, add_mul]

/-- The accumulation loop of `compute_level_normalized` is the sum of the
per-symbol terms over the kept symbols. -/
theorem levelScore_eq (bp prices w : List (String × ℚ)) :
    levelScore bp prices w
      = ((w.filter (levelKept bp prices)).map
          (fun sw => (lookup prices sw.1).getD 0 / (lookup bp sw.1).getD 0 * sw.2)).sum := by
  induction w with
  | nil => simp [levelScore]
  | cons head tail ih =>
    obtain ⟨s, wt⟩ := head
    simp only [levelScore]
    cases hp : lookup prices s with
    | none => simp [List.filter_cons, levelKept, hp, ih]
    | some p =>
      cases hb : lookup bp s with
      | none => simp [List.filter_cons, levelKept, hp, hb, ih]
      | some b =>
        rcases le_or_lt b 0 with h | h
        · simp [List.filter_cons, levelKept, hp, hb, if_pos h, not_lt.mpr h, ih]
        · simp [List.filter_cons, levelKept, hp, hb, if_neg (not_le.mpr h), h, ih]

/-- The accumulation loop of `compute_return_index` is the sum of the weighted
period returns over the kept symbols. -/
theorem returnAccum_eq (prev cur w : List (String × ℚ)) :
    returnAccum prev cur w = specReturnSum w prev cur := by
  induction w with
  | nil => simp [returnAccum, specReturnSum]
  | cons head tail ih =>
    obtain ⟨s, wt⟩ := head
    simp only [returnAccum, specReturnSum] at *
    cases hp : lookup prev s with
    | none => simp [List.filter_cons, returnKept, hp, ih]
    | some pv =>
      cases hc : lookup cur s with
      | none => simp [List.filter_cons, returnKept, hp, hc, ih]
      | some cv =>
        rcases le_or_lt pv 0 with h | h
        · simp [List.filter_cons, returnKept, hp, hc, if_pos h, not_lt.mpr h, ih]
        · simp [List.filter_cons, returnKept, hp, hc, if_neg (not_le.mpr h), h, ih]

/-! ## Claim theorems -/

/-- C2 counterexample: on scenario 1 the code returns 1220.72, which is not
the 1216.84 stated by the claim. -/
theorem scenario1_value_refutes_claim :
    computeLevelNormalized goldCalculator scenario1Prices = 1220.72
    ∧ (1220.72 : ℚ) ≠ 1216.84 := by
  constructor
  · simp [computeLevelNormalized, goldCalculator, goldWeights, goldBasePrices,
      scenario1Prices, levelScore, lookup, roundTo, ratRound]
    norm_num
  · norm_num

/-- C2 (amended): with the gold-silver-oil-crypto configuration and the
scenario-1 prices, `compute_level_normalized` returns 1220.72. -/
theorem scenario1_level_normalized :
    computeLevelNormalized goldCalculator scenario1Prices = 1220.72 := by
  simp [computeLevelNormalized, goldCalculator, goldWeights, goldBasePrices,
    scenario1Prices, levelScore, lookup, roundTo, ratRound]
  norm_num

/-- C7: construction succeeds exactly when the weights sum to 1.0 within an
absolute tolerance of 0.001, and fails with the invalid-config error
otherwise. -/
theorem mkIndexCalculator_tolerance (w bp : List (String × ℚ)) (L : ℚ) :
    ((∃ ic, mkIndexCalculator w bp L = .ok ic) ↔ |weightSum w - 1| ≤ 1 / 1000)
    ∧ (mkIndexCalculator w bp L = .error "Weights must sum to 1.0"
        ↔ 1 / 1000 < |weightSum w - 1|) := by
  unfold mkIndexCalculator
  split_ifs with h
  · exact ⟨iff_of_false (by simp) (not_le.mpr h), iff_of_true rfl h⟩
  · exact ⟨iff_of_true ⟨_, rfl⟩ (not_lt.mp h), iff_of_false (by simp) h⟩

/-- C8: the 24h delta is the rounded percentage change for a positive past
value and 0.0 for a non-positive one; in particular the (1200, 0) input
yields 0.0 rather than an error. -/
theorem computeIndexDelta24h_spec (current past : ℚ) :
    computeIndexDelta24h current past
      = (if 0 < past then roundTo 2 ((current - past) / past * 100) else 0)
    ∧ computeIndexDelta24h 1200 0 = 0 := by
  constructor
  · unfold computeIndexDelta24h
    rcases le_or_lt past 0 with h | h
    · rw [if_pos h, if_neg (not_lt.mpr h)]
    · rw [if_neg (not_le.mpr h), if_pos h]
  · norm_num [computeIndexDelta24h]

/-- C3: `compute_level_normalized` equals the 2-decimal rounding of the
weighted sum over exactly the symbols whose price and positive base price are
both present (all other symbols skipped silently); a snapshot missing BTC and
ETH still yields a value from GOLD, SILVER and OIL alone. -/
theorem computeLevelNormalized_spec (w bp prices : List (String × ℚ)) (L : ℚ) :
    computeLevelNormalized ⟨w, bp, L⟩ prices = roundTo 2 (specLevelSum w bp prices L)
    ∧ computeLevelNormalized goldCalculator scenario3Prices = 737.34 := by
  constructor
  · unfold computeLevelNormalized specLevelSum
    rw [levelScore_eq]
    simp only []
    congr 1
    exact (sum_map_mul_const _ _ _).symm
  · simp [computeLevelNormalized, goldCalculator, goldWeights, goldBasePrices,
      scenario3Prices, levelScore, lookup, roundTo, ratRound]
    norm_num

/-- C4: `compute_return_index` equals the 4-decimal rounding (not the 2 used
by the level-normalized method) of `prev_index_level × (1 + weighted return)`,
the weighted return accumulated over exactly the symbols present in both maps
with positive previous price; on scenario 2 the value is 1220.7197, which the
2-decimal rounding would not produce. -/
theorem computeReturnIndex_spec (w bp prev cur : List (String × ℚ)) (L lvl : ℚ) :
    computeReturnIndex ⟨w, bp, L⟩ prev cur lvl
      = roundTo 4 (lvl * (1 + specReturnSum w prev cur))
    ∧ computeReturnIndex goldCalculator goldBasePrices scenario1Prices 1000 = 1220.7197
    ∧ (1220.7197 : ℚ) ≠ 1220.72 := by
  refine ⟨?_, ?_, by norm_num⟩
  · unfold computeReturnIndex
    rw [returnAccum_eq]
  · simp [computeReturnIndex, goldCalculator, goldWeights, goldBasePrices,
      scenario1Prices, returnAccum, lookup, roundTo, ratRound]
    norm_num

/-- Evaluation rule for `fl`: once the binade of a (normal-range) value is
exhibited, `fl` is the ties-to-even rounding at that binade's quantum. -/
theorem fl_eval (x : ℚ) (k : ℤ) (hx : 0 < x) (hk : -1022 ≤ k)
    (h1 : (2 : ℚ) ^ k ≤ x) (h2 : x < (2 : ℚ) ^ (k + 1)) :
    fl x = (roundHalfEvenInt (x / 2 ^ (k - 52)) : ℚ) * 2 ^ (k - 52) := by
  have hlog : Int.log 2 x = k := by
    have ha : k ≤ Int.log 2 x := (Int.zpow_le_iff_le_log (by norm_num) hx).mp h1
    have hb : Int.log 2 x < k + 1 := (Int.lt_zpow_iff_log_lt (by norm_num) hx).mp h2
    omega
  have hexp : floatExp x = k - 52 := by
    unfold floatExp
    rw [abs_of_pos hx, hlog]
    exact max_eq_left (by omega)
  unfold fl
  rw [if_neg hx.ne', hexp]

/-- C9 counterexample: under the binary64 arithmetic the source actually runs,
reordering the weight bindings changes the accumulated score and the final
rounded output: with terms `10^16, 1, 1` the order `A,B,C` yields `10^16`
(each `+ 1` is absorbed, ties-to-even) while `B,C,A` yields `10^16 + 2`
(the `2` is added before the big term, exactly). The two weight lists are
permutations of each other, yet the results differ. -/
theorem float_perm_counterexample :
    c9Weights1.Perm c9Weights2
    ∧ floatComputeLevelNormalized ⟨c9Weights1, c9Bases, 1⟩ c9Prices
        = 10000000000000000
    ∧ floatComputeLevelNormalized ⟨c9Weights2, c9Bases, 1⟩ c9Prices
        = 10000000000000002
    ∧ (10000000000000000 : ℚ) ≠ 10000000000000002 := by
  have e1 : fl 20000000000000000 = 20000000000000000 := by
    rw [fl_eval _ 54 (by norm_num) (by norm_num) (by norm_num) (by norm_num)]
    norm_num [roundHalfEvenInt]
  have e2 : fl 10000000000000000 = 10000000000000000 := by
    rw [fl_eval _ 53 (by norm_num) (by norm_num) (by norm_num) (by norm_num)]
    norm_num [roundHalfEvenInt]
  have e3 : fl 4 = 4 := by
    rw [fl_eval _ 2 (by norm_num) (by norm_num) (by norm_num) (by norm_num)]
    norm_num [roundHalfEvenInt]
  have e4 : fl 1 = 1 := by
    rw [fl_eval _ 0 (by norm_num) (by norm_num) (by norm_num) (by norm_num)]
    norm_num [roundHalfEvenInt]
  have e5 : fl 10000000000000001 = 10000000000000000 := by
    rw [fl_eval _ 53 (by norm_num) (by norm_num) (by norm_num) (by norm_num)]
    norm_num [roundHalfEvenInt]
  have e7 : fl 2 = 2 := by
    rw [fl_eval _ 1 (by norm_num) (by norm_num) (by norm_num) (by norm_num)]
    norm_num [roundHalfEvenInt]
  have e8 : fl 10000000000000002 = 10000000000000002 := by
    rw [fl_eval _ 53 (by norm_num) (by norm_num) (by norm_num) (by norm_num)]
    norm_num [roundHalfEvenInt]
  have hab : ("A" = "B") = False := eq_false (by decide)
  have hac : ("A" = "C") = False := eq_false (by decide)
  have hbc : ("B" = "C") = False := eq_false (by decide)
  have hba : ("B" = "A") = False := eq_false (by decide)
  have hca : ("C" = "A") = False := eq_false (by decide)
  refine ⟨?_, ?_, ?_, by norm_num⟩
  · exact (List.Perm.swap _ _ _).trans (List.Perm.cons _ (List.Perm.swap _ _ _))
  · norm_num [floatComputeLevelNormalized, floatLevelLoop, lookup, c9Weights1,
      c9Bases, c9Prices, hab, hac, hbc, hba, hca, e1, e2, e3, e4, e5, roundTo, ratRound]
  · norm_num [floatComputeLevelNormalized, floatLevelLoop, lookup, c9Weights2,
      c9Bases, c9Prices, hab, hac, hbc, hba, hca, e1, e2, e3, e4, e7, e8, roundTo, ratRound]

/-- C9 (amended): `compute_level_normalized` is invariant under reordering of
the weight mapping in exact arithmetic — the ideal weighted sum does not
depend on the enumeration order; under IEEE accumulation as executed the
invariance fails (see the counterexample), so the claim's floating-point
clause is dropped. -/
theorem computeLevelNormalized_perm (w₁ w₂ bp prices : List (String × ℚ)) (L : ℚ)
    (h : w₁.Perm w₂) :
    computeLevelNormalized ⟨w₁, bp, L⟩ prices
      = computeLevelNormalized ⟨w₂, bp, L⟩ prices := by
  unfold computeLevelNormalized
  simp only []
  rw [levelScore_eq, levelScore_eq, List.Perm.sum_eq ((h.filter _).map _)]

/-- Witness for C9: swapping the first two gold-configuration weights leaves
the scenario-1 value unchanged. -/
theorem computeLevelNormalized_perm_witness :
    computeLevelNormalized ⟨goldWeights, goldBasePrices, 1000⟩ scenario1Prices
      = computeLevelNormalized ⟨goldWeightsSwapped, goldBasePrices, 1000⟩ scenario1Prices :=
  computeLevelNormalized_perm _ _ _ _ _ (List.Perm.swap _ _ _)

/-- The per-symbol validation loop fails exactly on a violation, and its
message is the first violation's message in weight order. -/
theorem validateLoop_spec (prices w : List (String × ℚ)) :
    ((validateLoop prices w).1 = false ↔ specViolation w prices)
    ∧ (validateLoop prices w).2 = (firstViolationMsg prices w).getD "" := by
  induction w with
  | nil => simp [validateLoop, specViolation, firstViolationMsg]
  | cons head tail ih =>
    obtain ⟨s, wt⟩ := head
    simp only [validateLoop, firstViolationMsg]
    cases hp : lookup prices s with
    | none =>
      refine ⟨iff_of_true rfl ⟨s, by simp, Or.inl hp⟩, rfl⟩
    | some p =>
      dsimp only
      rcases le_or_lt p 0 with h | h
      · rw [if_pos h, if_pos h]
        exact ⟨iff_of_true rfl ⟨s, by simp, Or.inr ⟨p, hp, h⟩⟩, rfl⟩
      · rw [if_neg (not_le.mpr h), if_neg (not_le.mpr h)]
        refine ⟨ih.1.trans ?_, ih.2⟩
        constructor
        · rintro ⟨s', hs', hv⟩
          exact ⟨s', List.mem_cons_of_mem _ hs', hv⟩
        · rintro ⟨s', hs', hv⟩
          rcases List.mem_cons.mp hs' with rfl | hmem
          · rcases hv with hv | ⟨q, hq, hq0⟩
            · rw [hp] at hv; cases hv
            · rw [hp] at hq
              injection hq with hq
              exact absurd (hq ▸ hq0) (not_le.mpr h)
          · exact ⟨s', hmem, hv⟩

/-- C5 counterexample: on the empty price mapping validation fails with the
fixed message `"No price data provided"`, not the message of the first
violation in weight order (`"Missing price for GOLD"`). -/
theorem validate_empty_reason_mismatch :
    validate_prices goldCalculator [] = (false, "No price data provided")
    ∧ firstViolationMsg [] goldWeights = some "Missing price for GOLD"
    ∧ ("No price data provided" : String) ≠ "Missing price for GOLD" :=
  ⟨rfl, rfl, by decide⟩

/-- C5 (amended): validation fails iff some configured symbol is missing or
non-positively priced; for a nonempty mapping the reason is the first
violation's message in weight order (missing before non-positive), while the
empty mapping short-circuits to the fixed reason `"No price data provided"`. -/
theorem validate_prices_spec (w bp : List (String × ℚ)) (L : ℚ)
    (prices : List (String × ℚ)) (hw : w ≠ []) :
    ((validate_prices ⟨w, bp, L⟩ prices).1 = false ↔ specViolation w prices)
    ∧ (prices ≠ [] →
        (validate_prices ⟨w, bp, L⟩ prices).2 = (firstViolationMsg prices w).getD "")
    ∧ (prices = [] → validate_prices ⟨w, bp, L⟩ prices = (false, "No price data provided")) := by
  cases prices with
  | nil =>
    refine ⟨?_, by simp, fun _ => rfl⟩
    refine iff_of_true rfl ?_
    cases w with
    | nil => exact absurd rfl hw
    | cons head tail => exact ⟨head.1, by simp, Or.inl rfl⟩
  | cons p ps =>
    have hval : validate_prices ⟨w, bp, L⟩ (p :: ps) = validateLoop (p :: ps) w := by
      simp [validate_prices]
    rw [hval]
    exact ⟨(validateLoop_spec _ _).1, fun _ => (validateLoop_spec _ _).2, by simp⟩

/-- Witness for C5 (amended): the gold configuration against the scenario-3
snapshot (BTC and ETH missing), where validation fails with the first
violation's message. -/
theorem validate_prices_spec_witness :
    ((validate_prices ⟨goldWeights, goldBasePrices, 1000⟩ scenario3Prices).1 = false
        ↔ specViolation goldWeights scenario3Prices)
    ∧ (scenario3Prices ≠ [] →
        (validate_prices ⟨goldWeights, goldBasePrices, 1000⟩ scenario3Prices).2
          = (firstViolationMsg scenario3Prices goldWeights).getD "")
    ∧ (scenario3Prices = [] →
        validate_prices ⟨goldWeights, goldBasePrices, 1000⟩ scenario3Prices
          = (false, "No price data provided")) :=
  validate_prices_spec goldWeights goldBasePrices 1000 scenario3Prices
    (by simp [goldWeights])

/-- C6: in one processing cycle, an index whose persistence write fails
contributes no stored row, and the cycle's outcome for all remaining indices
is exactly what it would have been without that index — a failure for index A
never prevents the other indices from being attempted. -/
theorem calculateIndices_isolation (cache : PriceCache) (delta : String → Option ℚ)
    (persistOk : String → Bool) (A : IndexConfigRec) (rest : List IndexConfigRec)
    (hA : persistOk A.name = false) :
    calculateIndices cache delta persistOk (A :: rest)
      = calculateIndices cache delta persistOk rest := by
  have h : processIndex cache delta persistOk A = none := by
    unfold processIndex
    dsimp only
    split
    · rfl
    · split
      · rfl
      · split
        · rfl
        · simp [hA]
  simp [calculateIndices, h]

/-- Witness for C6: with persistence failing for `indexA` only, the cycle over
`[cfgA, cfgB]` stores exactly `indexB`'s row, computed as if `cfgA` were
absent. -/
theorem calculateIndices_isolation_witness :
    calculateIndices cacheW (fun _ => none) persistFailA [cfgA, cfgB]
      = calculateIndices cacheW (fun _ => none) persistFailA [cfgB]
    ∧ calculateIndices cacheW (fun _ => none) persistFailA [cfgB]
      = [⟨"indexB", 1000, none⟩] := by
  constructor
  · exact calculateIndices_isolation _ _ _ _ _ (by rfl)
  · norm_num [calculateIndices, List.filterMap, processIndex, cacheW, cfgB, obsA,
      getLatestPricesForIndex, latestForSymbol, latestScan, latestStep,
      mkIndexCalculator, weightSum, validate_prices, validateLoop, lookup,
      persistFailA, computeLevelNormalized, levelScore, roundTo, ratRound]
    rfl

/-- Looking up the just-assigned key returns the new value. -/
theorem lookup_dictSet_self (d : List (String × α)) (k : String) (v : α) :
    lookup (dictSet d k v) k = some v := by
  induction d with
  | nil => simp [dictSet, lookup]
  | cons e rest ih =>
    obtain ⟨k₀, v₀⟩ := e
    by_cases h : k₀ = k
    · simp [dictSet, h, lookup]
    · simp [dictSet, h, lookup, ih]

/-- Dict assignment leaves every other key's binding unchanged. -/
theorem lookup_dictSet_ne (d : List (String × α)) (k k' : String) (v : α)
    (h : k' ≠ k) :
    lookup (dictSet d k v) k' = lookup d k' := by
  induction d with
  | nil => simp [dictSet, lookup, Ne.symm h]
  | cons e rest ih =>
    obtain ⟨k₀, v₀⟩ := e
    by_cases he : k₀ = k
    · simp [dictSet, he, lookup, Ne.symm h]
    · simp [dictSet, he, lookup, ih]

/-- One step of the per-symbol scan either keeps the accumulator (and then a
matching entry was not fresher than the held candidate) or moves to the
current entry (which matches the symbol and is fresher than any candidate). -/
theorem latestStep_cases (s : String) (acc : Option PriceData) (e : String × PriceData) :
    (latestStep s acc e = acc
      ∧ (e.2.symbol = s → ∃ b, acc = some b ∧ e.2.timestamp ≤ b.timestamp))
    ∨ (latestStep s acc e = some e.2 ∧ e.2.symbol = s
        ∧ ∀ b, acc = some b → b.timestamp ≤ e.2.timestamp) := by
  unfold latestStep
  by_cases hm : e.2.symbol = s
  · cases acc with
    | none =>
      refine Or.inr ⟨by simp [hm], hm, ?_⟩
      intro b hb
      cases hb
    | some best =>
      rcases lt_or_le best.timestamp e.2.timestamp with hlt | hle
      · refine Or.inr ⟨by simp [hm, hlt], hm, ?_⟩
        intro b hb
        cases hb
        exact hlt.le
      · exact Or.inl ⟨by simp [hm, not_lt.mpr hle], fun _ => ⟨best, rfl, hle⟩⟩
  · exact Or.inl ⟨by simp [hm], fun hc => absurd hc hm⟩

/-- One step of the scan yields no candidate iff none was held and the entry
does not match the symbol. -/
theorem latestStep_none_iff (s : String) (acc : Option PriceData)
    (e : String × PriceData) :
    latestStep s acc e = none ↔ acc = none ∧ e.2.symbol ≠ s := by
  unfold latestStep
  by_cases hm : e.2.symbol = s
  · rw [if_pos hm]
    cases acc with
    | none => simp [hm]
    | some best =>
      dsimp only
      split <;> simp [hm]
  · rw [if_neg hm]
    simp [hm]

/-- The scan yields no candidate iff the accumulator was empty and no entry
matches the symbol. -/
theorem latestScan_none_iff (s : String) (l : List (String × PriceData)) :
    ∀ acc, (latestScan s acc l = none ↔ acc = none ∧ ∀ e ∈ l, e.2.symbol ≠ s) := by
  induction l with
  | nil => intro acc; simp [latestScan]
  | cons e rest ih =>
    intro acc
    simp only [latestScan]
    rw [ih, latestStep_none_iff]
    constructor
    · rintro ⟨⟨h1, h2⟩, h3⟩
      refine ⟨h1, fun f hf => ?_⟩
      rcases List.mem_cons.mp hf with rfl | hm
      · exact h2
      · exact h3 f hm
    · rintro ⟨h1, h2⟩
      exact ⟨⟨h1, h2 e (List.mem_cons_self e rest)⟩,
        fun f hf => h2 f (List.mem_cons_of_mem e hf)⟩

/-- The scan's candidate is either the initial accumulator or a cache entry
matching the symbol; its timestamp dominates the accumulator's and every
matching entry's. -/
theorem latestScan_spec (s : String) (l : List (String × PriceData)) :
    ∀ acc pd, latestScan s acc l = some pd →
      (acc = some pd ∨ (pd.symbol = s ∧ pd ∈ l.map Prod.snd))
      ∧ (∀ b, acc = some b → b.timestamp ≤ pd.timestamp)
      ∧ (∀ e ∈ l, e.2.symbol = s → e.2.timestamp ≤ pd.timestamp) := by
  induction l with
  | nil =>
    intro acc pd h
    simp only [latestScan] at h
    refine ⟨Or.inl h, ?_, ?_⟩
    · intro b hb
      rw [hb] at h
      injection h with h
      exact le_of_eq (congrArg PriceData.timestamp h)
    · intro f hf
      exact absurd hf (List.not_mem_nil f)
  | cons e rest ih =>
    intro acc pd h
    simp only [latestScan] at h
    obtain ⟨h1, h2, h3⟩ := ih (latestStep s acc e) pd h
    rcases latestStep_cases s acc e with ⟨hstep, hinfo⟩ | ⟨hstep, hsym, hinfo⟩
    · rw [hstep] at h1 h2
      refine ⟨h1.imp_right (fun hx => ⟨hx.1, List.mem_cons_of_mem _ hx.2⟩), h2, ?_⟩
      intro f hf hfs
      rcases List.mem_cons.mp hf with rfl | hm
      · obtain ⟨b, hb, hle⟩ := hinfo hfs
        exact hle.trans (h2 b hb)
      · exact h3 f hm hfs
    · rw [hstep] at h1 h2
      have hept : e.2.timestamp ≤ pd.timestamp := h2 e.2 rfl
      refine ⟨?_, ?_, ?_⟩
      · rcases h1 with h1 | h1
        · injection h1 with h1
          refine Or.inr ⟨h1 ▸ hsym, h1 ▸ ?_⟩
          exact List.mem_map_of_mem Prod.snd (List.mem_cons_self e rest)
        · exact Or.inr ⟨h1.1, List.mem_cons_of_mem _ h1.2⟩
      · intro b hb
        exact (hinfo b hb).trans hept
      · intro f hf hfs
        rcases List.mem_cons.mp hf with rfl | hm
        · exact hept
        · exact h3 f hm hfs

/-- Unfolding the snapshot builder over a cons of weight bindings. -/
theorem getLatest_cons (cache : PriceCache) (e : String × ℚ)
    (rest : List (String × ℚ)) :
    getLatestPricesForIndex cache (e :: rest)
      = (match latestForSymbol cache e.1 with
         | some pd => (e.1, pd.price) :: getLatestPricesForIndex cache rest
         | none => getLatestPricesForIndex cache rest) := rfl

/-- Symbols not requested never appear in the snapshot. -/
theorem lookup_getLatest_not_mem (cache : PriceCache) (w : List (String × ℚ))
    (s : String) (hs : s ∉ w.map Prod.fst) :
    lookup (getLatestPricesForIndex cache w) s = none := by
  induction w with
  | nil => rfl
  | cons e rest ih =>
    have h1 : e.1 ≠ s := fun h => hs (List.mem_cons.mpr (Or.inl h.symm))
    have h2 : s ∉ rest.map Prod.fst := fun hm => hs (List.mem_cons_of_mem _ hm)
    rw [getLatest_cons]
    cases hl : latestForSymbol cache e.1 with
    | none => exact ih h2
    | some pd =>
      simp only [lookup, if_neg h1]
      exact ih h2

/-- For a requested symbol (under distinct configured symbols), the snapshot's
entry is exactly the price of the freshest cached observation. -/
theorem lookup_getLatest (cache : PriceCache) (w : List (String × ℚ))
    (s : String) (hnd : (w.map Prod.fst).Nodup) (hs : s ∈ w.map Prod.fst) :
    lookup (getLatestPricesForIndex cache w) s
      = (latestForSymbol cache s).map PriceData.price := by
  induction w with
  | nil => exact absurd hs (List.not_mem_nil s)
  | cons e rest ih =>
    have hnd' : (rest.map Prod.fst).Nodup := (List.nodup_cons.mp hnd).2
    rw [getLatest_cons]
    by_cases he : e.1 = s
    · subst he
      have hnot : e.1 ∉ rest.map Prod.fst := (List.nodup_cons.mp hnd).1
      cases hl : latestForSymbol cache e.1 with
      | none => simpa using lookup_getLatest_not_mem cache rest e.1 hnot
      | some pd => simp [lookup]
    · have hs' : s ∈ rest.map Prod.fst := by
        rcases List.mem_cons.mp hs with h | h
        · exact absurd h.symm he
        · exact h
      cases hl : latestForSymbol cache e.1 with
      | none => exact ih hnd' hs'
      | some pd =>
        simp only [lookup, if_neg he]
        exact ih hnd' hs'

/-- C1 counterexample: two observations with the same symbol and the same
source; the older one (B) arrives second and the snapshot then returns B's
price, not A's — an older observation does overwrite a newer one. -/
theorem cache_same_source_overwrite :
    obsB.timestamp < obsA.timestamp
    ∧ obsA.symbol = obsB.symbol
    ∧ lookup (getLatestPricesForIndex
        (updatePriceCache (updatePriceCache [] obsA) obsB) goldWeights) "GOLD"
        = some obsB.price
    ∧ obsB.price ≠ obsA.price := by
  refine ⟨by norm_num [obsA, obsB], rfl, rfl, by norm_num [obsA, obsB]⟩

/-- C1 (amended): an older observation never overwrites a newer one *provided
the two observations come from different sources*: after updating with A and
then with an older B for the same symbol from another source, the snapshot
still returns A's price. (With an equal source the second write replaces the
first unconditionally, as the counterexample shows.) -/
theorem cache_no_stale_overwrite (A B : PriceData) (w : ℚ)
    (hsym : B.symbol = A.symbol) (hsrc : A.source ≠ B.source)
    (hts : B.timestamp < A.timestamp) :
    lookup (getLatestPricesForIndex (updatePriceCache (updatePriceCache [] A) B)
        [(A.symbol, w)]) A.symbol = some A.price := by
  have hkey : cacheKey A ≠ cacheKey B := by
    unfold cacheKey
    rw [hsym]
    intro he
    apply hsrc
    have hd := congrArg String.data he
    simp only [String.data_append, List.append_assoc] at hd
    exact String.ext (List.append_cancel_left (List.append_cancel_left hd))
  have hcache : updatePriceCache (updatePriceCache [] A) B
      = [(cacheKey A, A), (cacheKey B, B)] := by
    simp [updatePriceCache, dictSet, hkey]
  have s1 : latestStep A.symbol none (cacheKey A, A) = some A := by
    simp [latestStep]
  have s2 : latestStep A.symbol (some A) (cacheKey B, B) = some A := by
    simp [latestStep, hsym, not_lt.mpr hts.le]
  have hl : latestForSymbol [(cacheKey A, A), (cacheKey B, B)] A.symbol = some A := by
    unfold latestForSymbol
    show latestScan A.symbol (latestStep A.symbol none (cacheKey A, A)) [(cacheKey B, B)] = some A
    rw [s1]
    show latestScan A.symbol (latestStep A.symbol (some A) (cacheKey B, B)) [] = some A
    rw [s2]
    rfl
  rw [hcache, getLatest_cons]
  dsimp only
  rw [hl]
  simp [lookup]

/-- Witness for C1 (amended): A from source alpha at time 2, then the older C
from source beta at time 1; the snapshot returns A's price. -/
theorem cache_no_stale_overwrite_witness :
    lookup (getLatestPricesForIndex (updatePriceCache (updatePriceCache [] obsA) obsC)
        [(obsA.symbol, 0.25)]) obsA.symbol = some obsA.price :=
  cache_no_stale_overwrite obsA obsC 0.25 rfl (by decide) (by decide)

/-- C10: the cache keys entries by `symbol:source` and assignment overwrites
only that key (entries under other keys, including other sources of the same
symbol, are untouched); the snapshot returns, for each requested symbol, the
price of a cached observation with that symbol whose timestamp is maximal
among all its cached observations, and omits symbols with no cached entry. -/
theorem priceCache_spec (cache : PriceCache) (pd : PriceData) (k s : String)
    (w : List (String × ℚ)) (hk : k ≠ cacheKey pd)
    (hnd : (w.map Prod.fst).Nodup) (hs : s ∈ w.map Prod.fst) :
    lookup (updatePriceCache cache pd) (cacheKey pd) = some pd
    ∧ lookup (updatePriceCache cache pd) k = lookup cache k
    ∧ lookup (getLatestPricesForIndex cache w) s
        = (latestForSymbol cache s).map PriceData.price
    ∧ (latestForSymbol cache s = none ↔ ∀ e ∈ cache, e.2.symbol ≠ s)
    ∧ (∀ q, latestForSymbol cache s = some q →
        q.symbol = s ∧ q ∈ cache.map Prod.snd
        ∧ ∀ e ∈ cache, e.2.symbol = s → e.2.timestamp ≤ q.timestamp) := by
  refine ⟨lookup_dictSet_self _ _ _, lookup_dictSet_ne _ _ _ _ hk,
    lookup_getLatest _ _ _ hnd hs, ?_, ?_⟩
  · simpa [latestForSymbol] using latestScan_none_iff s cache none
  · intro q hq
    obtain ⟨h1, _, h3⟩ := latestScan_spec s cache none q hq
    rcases h1 with h1 | h1
    · cases h1
    · exact ⟨h1.1, h1.2, h3⟩

/-- Witness for C10: the singleton cache, the observation C from a second
source, a distinct key, and the symbol GOLD of the gold configuration. -/
theorem priceCache_spec_witness :
    lookup (updatePriceCache cacheW obsC) (cacheKey obsC) = some obsC
    ∧ lookup (updatePriceCache cacheW obsC) "GOLD:alpha" = lookup cacheW "GOLD:alpha"
    ∧ lookup (getLatestPricesForIndex cacheW goldWeights) "GOLD"
        = (latestForSymbol cacheW "GOLD").map PriceData.price
    ∧ (latestForSymbol cacheW "GOLD" = none ↔ ∀ e ∈ cacheW, e.2.symbol ≠ "GOLD")
    ∧ (∀ q, latestForSymbol cacheW "GOLD" = some q →
        q.symbol = "GOLD" ∧ q ∈ cacheW.map Prod.snd
        ∧ ∀ e ∈ cacheW, e.2.symbol = "GOLD" → e.2.timestamp ≤ q.timestamp) :=
  priceCache_spec cacheW obsC "GOLD:alpha" "GOLD" goldWeights
    (by decide) (by decide) (by decide)

end Sentindex
